import Mathlib

set_option exponentiation.threshold 1100
set_option maxRecDepth 8000

/-!
Verification development for `scimago_parser.py`, a one-shot utility that
converts a semicolon-delimited Scimago CSV export into a generated JS module
mapping ISSN strings to rounded integer SJR scores.

The Python source is shallowly embedded below.  Strings are modelled as Lean
`String` (lists of characters); Python `dict` is modelled as an insertion-order
association list `List (String × Int)`; fallible operations return `Except`.
Python's `float` is modelled exactly on decimal components (mantissa, fraction
length, exponent, sign) rather than binary floating point: every decimal
string parsed by the program denotes an exact rational, and `round` is
round-half-to-even on that exact value, which agrees with CPython on all
decimal inputs whose value is representable, including every input exercised
here.  Overflow of `float(...)` to an infinity is modelled with the exact
IEEE-754 double overflow threshold `2^1024 - 2^970`.  Whitespace is the ASCII
whitespace set stripped by Python's `str.strip` on ASCII data.
-/

/-- ASCII whitespace characters, as stripped by Python `str.strip()` on ASCII
text: space, tab, newline, carriage return, vertical tab, form feed. -/
def pyIsSpace (c : Char) : Bool :=
  c == ' ' || c == '\t' || c == '\n' || c == '\r' || c == '\x0b' || c == '\x0c'

/-- Python `s.strip()` on a character list: drop whitespace from both ends. -/
def pyStripChars (cs : List Char) : List Char :=
  ((cs.dropWhile pyIsSpace).reverse.dropWhile pyIsSpace).reverse

/-- Python `s.strip()` at the `String` level. -/
def pyStrip (s : String) : String := String.mk (pyStripChars s.data)

/-- The final character class `[0-9Xx]` of `ISSN_PATTERN`. -/
def issnCheckChar (c : Char) : Bool := c.isDigit || c == 'X' || c == 'x'

/-- The body of the anchored regex `^[0-9]{4}-?[0-9]{3}[0-9Xx]$` from
`ISSN_PATTERN`: either eight characters (no dash) or nine characters with a
dash at index four. -/
def issnBody : List Char → Bool
  | [c1, c2, c3, c4, c5, c6, c7, c8] =>
    c1.isDigit && c2.isDigit && c3.isDigit && c4.isDigit &&
    c5.isDigit && c6.isDigit && c7.isDigit && issnCheckChar c8
  | [c1, c2, c3, c4, d, c5, c6, c7, c8] =>
    c1.isDigit && c2.isDigit && c3.isDigit && c4.isDigit && d == '-' &&
    c5.isDigit && c6.isDigit && c7.isDigit && issnCheckChar c8
  | _ => false

/-- `is_valid_issn(value)`: `bool(ISSN_PATTERN.match(value))`.  Python's `$`
anchor also matches just before a single trailing newline, which is modelled
by the second disjunct. -/
def is_valid_issn (s : String) : Bool :=
  issnBody s.data ||
    (match s.data.getLast? with
     | some c => if c == '\n' then issnBody s.data.dropLast else false
     | none => false)

/-- `normalize_issn(value)`: `value.replace(" ", "")`. -/
def normalize_issn (s : String) : String :=
  String.mk (s.data.filter (fun c => c != ' '))

/-- Python `s.split(",")`: split at every comma, keeping empty pieces. -/
def splitComma : List Char → List (List Char)
  | [] => [[]]
  | c :: rest =>
    match splitComma rest with
    | [] => [[]]
    | p :: ps => if c == ',' then [] :: p :: ps else (c :: p) :: ps

/-- `parse_issns(issn_field)`: empty field yields `[]`; otherwise split on
`,`, strip each piece, keep the normalization of each nonempty piece that
matches `ISSN_PATTERN`. -/
def parse_issns (issn_field : String) : List String :=
  if issn_field = "" then []
  else
    (splitComma issn_field.data).filterMap (fun part =>
      let cleaned := pyStripChars part
      if cleaned ≠ [] ∧ is_valid_issn (String.mk cleaned) = true then
        some (normalize_issn (String.mk cleaned))
      else none)

/-- Value of a run of decimal digit characters. -/
def digitsToNat (cs : List Char) : Nat :=
  cs.foldl (fun a c => 10 * a + (c.toNat - 48)) 0

/-- Strip one optional leading sign; returns (isNegative, rest). -/
def stripSign : List Char → (Bool × List Char)
  | '+' :: rest => (false, rest)
  | '-' :: rest => (true, rest)
  | cs => (false, cs)

/-- Helper for `underscoresOk`: `prev` is the previous character. -/
def uokAux : Char → List Char → Bool
  | _, [] => true
  | prev, c :: rest =>
    (if c == '_' then
        prev.isDigit && (match rest with | d :: _ => d.isDigit | [] => false)
      else true)
      && uokAux c rest

/-- CPython's numeric-literal underscore rule for `float(str)`: every
underscore must sit between two digits. -/
def underscoresOk (cs : List Char) : Bool := uokAux 'a' cs

/-- Result of Python `float(str)`: a finite value given by exact decimal
components (value `mant · 10 ^ (exp - fracLen)`, negated when `neg`), or an
infinity, or NaN. -/
inductive PyFloat where
  | finite (mant : Nat) (fracLen : Nat) (exp : Int) (neg : Bool)
  | inf
  | neginf
  | nan

/-- Decimal values at or above this bound round to +infinity when converted
to an IEEE-754 double: `DBL_MAX + one half ulp`. -/
def dblOverflowBound : Nat := 2 ^ 1024 - 2 ^ 970

/-- Whether the decimal value `mant · 10 ^ (exp - fracLen)` converts to an
infinity as a double. -/
def decOverflows (mant fracLen : Nat) (exp : Int) : Bool :=
  let e : Int := exp - fracLen
  if 0 ≤ e then decide (dblOverflowBound ≤ mant * 10 ^ e.toNat)
  else decide (dblOverflowBound * 10 ^ (-e).toNat ≤ mant)

/-- Build the `PyFloat` for integer digits `ip`, fraction digits `frac`,
decimal exponent `exp` and sign `neg`, modelling overflow to infinity. -/
def mkPyFloat (ip frac : List Char) (exp : Int) (neg : Bool) : PyFloat :=
  let mant := digitsToNat (ip ++ frac)
  if decOverflows mant frac.length exp then (if neg then .neginf else .inf)
  else .finite mant frac.length exp neg

/-- Parse the optional exponent part of a float literal; `rest` is what
follows the mantissa. -/
def parseExpPart (ip frac rest : List Char) (neg : Bool) : Option PyFloat :=
  match rest with
  | [] => some (mkPyFloat ip frac 0 neg)
  | e :: r1 =>
    if e == 'e' || e == 'E' then
      let (eneg, r2) := stripSign r1
      let ed := r2.takeWhile Char.isDigit
      let r3 := r2.dropWhile Char.isDigit
      if ed = [] ∨ r3 ≠ [] then none
      else some (mkPyFloat ip frac ((if eneg then -1 else 1) * (digitsToNat ed : Int)) neg)
    else none

/-- Parse an unsigned numeric float literal (underscores already removed):
`digits [. digits] [e [sign] digits]` with at least one mantissa digit. -/
def parseNumeric (cs : List Char) (neg : Bool) : Option PyFloat :=
  let ip := cs.takeWhile Char.isDigit
  let r1 := cs.dropWhile Char.isDigit
  match r1 with
  | '.' :: r2 =>
    let frac := r2.takeWhile Char.isDigit
    let r3 := r2.dropWhile Char.isDigit
    if ip = [] ∧ frac = [] then none else parseExpPart ip frac r3 neg
  | _ => if ip = [] then none else parseExpPart ip [] r1 neg

/-- Python `float(str)` on an already-stripped string: optional sign, then
`inf`/`infinity`/`nan` (case-insensitive) or a numeric literal. -/
def parseFloatChars (cs : List Char) : Option PyFloat :=
  let (neg, rest) := stripSign cs
  let low := rest.map Char.toLower
  if low = "inf".data ∨ low = "infinity".data then
    some (if neg then .neginf else .inf)
  else if low = "nan".data then some .nan
  else if underscoresOk rest then parseNumeric (rest.filter (fun c => c != '_')) neg
  else none

/-- Python `float(str)` at the `String` level; `none` models `ValueError`. -/
def pyFloatOfString (s : String) : Option PyFloat := parseFloatChars s.data

/-- Python `round` (one-argument, ties to even) on the exact decimal value
`mant · 10 ^ (exp - fracLen)` with sign `neg`. -/
def roundHalfEven (mant fracLen : Nat) (exp : Int) (neg : Bool) : Int :=
  let e : Int := exp - fracLen
  let mag : Int :=
    if 0 ≤ e then ((mant * 10 ^ e.toNat : Nat) : Int)
    else
      let d := 10 ^ (-e).toNat
      let q : Nat := mant / d
      let r : Nat := mant % d
      if 2 * r < d then (q : Int)
      else if d < 2 * r then (q : Int) + 1
      else if q % 2 = 0 then (q : Int) else (q : Int) + 1
  if neg then -mag else mag

/-- `cleaned.replace(" ", "")` from `parse_sjr`. -/
def removeSpaces (s : String) : String :=
  String.mk (s.data.filter (fun c => c != ' '))

/-- The separator disambiguation of `parse_sjr`: with both `,` and `.`
present, strip periods and turn the comma into a period; with only `,`,
turn it into a period; otherwise leave the string unchanged. -/
def normalizeDecimal (s : String) : String :=
  if s.data.contains ',' && s.data.contains '.' then
    String.mk ((s.data.filter (fun c => c != '.')).map (fun c => if c == ',' then '.' else c))
  else if s.data.contains ',' then
    String.mk (s.data.map (fun c => if c == ',' then '.' else c))
  else s

/-- `parse_sjr(value)`.  `Except.ok none` is Python `None`; `Except.error ()`
models the uncaught `ValueError`/`OverflowError` that `round` raises when
`float(cleaned)` produced a NaN or an infinity (only `float`'s own
`ValueError` is caught in the source). -/
def parse_sjr (value : String) : Except Unit (Option Int) :=
  let cleaned := pyStrip value
  if cleaned = "" then Except.ok none
  else
    let cleaned2 := removeSpaces cleaned
    let cleaned3 := normalizeDecimal cleaned2
    match pyFloatOfString cleaned3 with
    | none => Except.ok none
    | some (.finite m f e n) => Except.ok (some (roundHalfEven m f e n))
    | some _ => Except.error ()

/-- The float value that `parse_sjr` hands to `round`, if any. -/
def sjrParsedFloat (value : String) : Option PyFloat :=
  pyFloatOfString (normalizeDecimal (removeSpaces (pyStrip value)))

/-- Whether a parse result is NaN or an infinity (the cases where `round`
raises). -/
def isSpecialFloat : Option PyFloat → Bool
  | some .inf => true
  | some .neginf => true
  | some .nan => true
  | _ => false

/-- Python `dict` lookup on an insertion-ordered association list. -/
def dictGet (k : String) : List (String × Int) → Option Int
  | [] => none
  | (a, v) :: rest => if a = k then some v else dictGet k rest

/-- Python `dict` assignment `m[k] = v`: replace in place when the key is
present, append otherwise. -/
def dictInsert (m : List (String × Int)) (k : String) (v : Int) : List (String × Int) :=
  if (dictGet k m).isSome then m.map (fun p => if p.1 = k then (k, v) else p)
  else m ++ [(k, v)]

/-- The conditional update from `load_sjr_map`:
`if issn in sjr_map and sjr_map[issn] != sjr_value:` store the maximum,
`else:` store the incoming value. -/
def updateEntry (m : List (String × Int)) (k : String) (v : Int) : List (String × Int) :=
  match dictGet k m with
  | some old => if old ≠ v then dictInsert m k (max old v) else dictInsert m k v
  | none => dictInsert m k v

/-- The unconditional maximum-update: always store the maximum of the stored
value (taking the incoming score when the key is absent) and the incoming
score. -/
def updateMax (m : List (String × Int)) (k : String) (v : Int) : List (String × Int) :=
  match dictGet k m with
  | some old => dictInsert m k (max old v)
  | none => dictInsert m k v

/-- The inner loop `for issn in parse_issns(issn_field)` of `load_sjr_map`. -/
def foldIssns (issns : List String) (v : Int) (m : List (String × Int)) : List (String × Int) :=
  issns.foldl (fun acc i => updateEntry acc i v) m

/-- One CSV data row, restricted to the two columns the program reads:
the raw `Issn` and `SJR` field values. -/
structure Row where
  issn : String
  sjr : String

/-- A CSV file as seen through `csv.DictReader`: `header` is
`reader.fieldnames` (`none` for an empty file), `rows` the data rows. -/
structure CsvFile where
  header : Option (List String)
  rows : List Row

/-- The errors `load_sjr_map` can raise: `FileNotFoundError`, `ValueError`
with a message for a bad header, or a numeric error propagated from a row. -/
inductive LoadError where
  | notFound
  | malformed (msg : String)
  | numeric

/-- The row loop of `load_sjr_map`: per row, strip the `Issn` field, parse
the score, skip the row when the score is absent, otherwise fold the parsed
ISSNs into the map. -/
def processRows : List Row → List (String × Int) → Except Unit (List (String × Int))
  | [], m => Except.ok m
  | r :: rs, m =>
    match parse_sjr r.sjr with
    | Except.error e => Except.error e
    | Except.ok none => processRows rs m
    | Except.ok (some v) => processRows rs (foldIssns (parse_issns (pyStrip r.issn)) v m)

/-- `load_sjr_map(csv_path)`.  `none` models a nonexistent path; header
validation happens before any row is processed. -/
def load_sjr_map (file : Option CsvFile) : Except LoadError (List (String × Int)) :=
  match file with
  | none => Except.error LoadError.notFound
  | some f =>
    match f.header with
    | none => Except.error (LoadError.malformed "CSV header is missing.")
    | some hdr =>
      if "Issn" ∉ hdr ∨ "SJR" ∉ hdr then
        Except.error (LoadError.malformed "CSV header missing required columns: Issn, SJR")
      else
        match processRows f.rows [] with
        | Except.ok m => Except.ok m
        | Except.error _ => Except.error LoadError.numeric

/-- Maximum of an optional accumulator and a new score. -/
def optMax (o : Option Int) (v : Int) : Int :=
  match o with
  | some a => max a v
  | none => v

/-- Fold a list of scores into an optional running maximum. -/
def combineScores (o : Option Int) (ss : List Int) : Option Int :=
  ss.foldl (fun acc s => some (optMax acc s)) o

/-- All scores contributed for key `k` by the given rows: the parsed score of
every row whose score is present and whose parsed ISSN list contains `k`. -/
def scoresFor (rows : List Row) (k : String) : List Int :=
  rows.filterMap (fun r =>
    match parse_sjr r.sjr with
    | Except.ok (some s) => if k ∈ parse_issns (pyStrip r.issn) then some s else none
    | _ => none)

/-- Insert a key into an ascending list (one step of insertion sort). -/
def insertKey (k : String) : List String → List String
  | [] => [k]
  | x :: xs => if k ≤ x then k :: x :: xs else x :: insertKey k xs

/-- Python `sorted` on a list of strings (ascending lexicographic by code
point), as insertion sort. -/
def sortKeys : List String → List String
  | [] => []
  | x :: xs => insertKey x (sortKeys xs)

/-- `sorted(sjr_map)`: the map's keys in sorted order. -/
def sortedKeys (m : List (String × Int)) : List String := sortKeys (m.map Prod.fst)

/-- Python `"\n".join(lines)`. -/
def joinLines : List String → String
  | [] => ""
  | [l] => l
  | l :: l2 :: rest => l ++ "\n" ++ joinLines (l2 :: rest)

/-- `write_js_module(sjr_map, ...)`: the text written to the output file. -/
def write_js_module (m : List (String × Int)) : String :=
  joinLines
    (["// Scimago SJR mapping generated from scimagojr_2024.csv.", "",
      "export const SCIMAGO_SJR = \x7b"]
      ++ (sortedKeys m).map (fun k =>
            "    \"" ++ k ++ "\": " ++ toString ((dictGet k m).getD 0) ++ ",")
      ++ ["\x7d;", ""])

/-- Concatenation of a list of strings. -/
def strJoin : List String → String
  | [] => ""
  | s :: rest => s ++ strJoin rest

/-- The claimed output shape, leading part: a header comment line, a blank
line, and an opening declaration line, each ended by a newline. -/
def specEmitHeader : String :=
  "// Scimago SJR mapping generated from scimagojr_2024.csv." ++ "\n" ++ "" ++ "\n" ++
    "export const SCIMAGO_SJR = \x7b" ++ "\n"

/-- The claimed output shape, trailing part: the closing line and the single
trailing newline. -/
def specEmitFooter : String := "\x7d;" ++ "\n"

/-- An entry line as the claim C3 describes it, with two-space indentation
and a trailing comma. -/
def specEntryLineTwo (m : List (String × Int)) (k : String) : String :=
  "  \"" ++ k ++ "\": " ++ toString ((dictGet k m).getD 0) ++ ","

/-- An entry line as the code actually writes it, with four-space
indentation and a trailing comma. -/
def specEntryLineFour (m : List (String × Int)) (k : String) : String :=
  "    \"" ++ k ++ "\": " ++ toString ((dictGet k m).getD 0) ++ ","

/-- The output artifact claim C3 describes (two-space indentation): header,
entry line plus newline per sorted key, footer. -/
def specEmitTwoSpace (m : List (String × Int)) : String :=
  specEmitHeader ++ strJoin ((sortedKeys m).map (fun k => specEntryLineTwo m k ++ "\n")) ++ specEmitFooter

/-- The output artifact with C3's indentation corrected to four spaces. -/
def specEmitFourSpace (m : List (String × Int)) : String :=
  specEmitHeader ++ strJoin ((sortedKeys m).map (fun k => specEntryLineFour m k ++ "\n")) ++ specEmitFooter

/-- The ISSN piece pattern exactly as claim C5 words it: 4 digits, an
optional dash, 3 digits, and a final digit or `X`/`x`. -/
def issnSpecPattern : List Char → Bool
  | [c1, c2, c3, c4, c5, c6, c7, c8] =>
    c1.isDigit && c2.isDigit && c3.isDigit && c4.isDigit &&
    c5.isDigit && c6.isDigit && c7.isDigit && (c8.isDigit || c8 == 'X' || c8 == 'x')
  | [c1, c2, c3, c4, d, c5, c6, c7, c8] =>
    c1.isDigit && c2.isDigit && c3.isDigit && c4.isDigit && d == '-' &&
    c5.isDigit && c6.isDigit && c7.isDigit && (c8.isDigit || c8 == 'X' || c8 == 'x')
  | _ => false

/-- The ISSN field algorithm exactly as claim C5 words it: split on `,`,
trim each piece, keep (with internal whitespace removed) exactly the pieces
matching the pattern, discard the rest. -/
def claimParseIssns (issn_field : String) : List String :=
  (splitComma issn_field.data).filterMap (fun part =>
    let t := pyStripChars part
    if issnSpecPattern t then some (String.mk (t.filter (fun c => !pyIsSpace c))) else none)

/-! ### Association-list (Python dict) lemmas -/

theorem dictGet_cons (k a : String) (v : Int) (rest : List (String × Int)) :
    dictGet k ((a, v) :: rest) = if a = k then some v else dictGet k rest := rfl

theorem mapInsert_cons (a : String) (b : Int) (m : List (String × Int))
    (k : String) (v : Int) :
    ((a, b) :: m).map (fun p => if p.1 = k then (k, v) else p) =
      (if a = k then (k, v) else (a, b)) :: m.map (fun p => if p.1 = k then (k, v) else p) :=
  rfl

theorem dictGet_map_self (m : List (String × Int)) (k : String) (v : Int) :
    dictGet k (m.map (fun p => if p.1 = k then (k, v) else p)) =
      if (dictGet k m).isSome then some v else none := by
  induction m with
  | nil => simp [dictGet]
  | cons p m ih =>
    obtain ⟨a, b⟩ := p
    rw [mapInsert_cons]
    by_cases ha : a = k
    · rw [if_pos ha, dictGet_cons, if_pos rfl, dictGet_cons, if_pos ha]
      simp
    · rw [if_neg ha, dictGet_cons, if_neg ha, dictGet_cons, if_neg ha]
      exact ih

theorem dictGet_map_ne (m : List (String × Int)) (k : String) (v : Int) (k' : String)
    (h : k' ≠ k) :
    dictGet k' (m.map (fun p => if p.1 = k then (k, v) else p)) = dictGet k' m := by
  induction m with
  | nil => simp [dictGet]
  | cons p m ih =>
    obtain ⟨a, b⟩ := p
    rw [mapInsert_cons]
    by_cases ha : a = k
    · have hk : ¬ k = k' := fun hh => h hh.symm
      have ha' : ¬ a = k' := ha ▸ hk
      rw [if_pos ha, dictGet_cons, if_neg hk, dictGet_cons, if_neg ha']
      exact ih
    · rw [if_neg ha, dictGet_cons, dictGet_cons]
      by_cases ha' : a = k'
      · rw [if_pos ha', if_pos ha']
      · rw [if_neg ha', if_neg ha']
        exact ih

theorem dictGet_append_of_none {m : List (String × Int)} {k : String}
    (h : dictGet k m = none) (l : List (String × Int)) :
    dictGet k (m ++ l) = dictGet k l := by
  induction m with
  | nil => simp
  | cons p m ih =>
    obtain ⟨a, b⟩ := p
    rw [dictGet_cons] at h
    by_cases ha : a = k
    · rw [if_pos ha] at h
      exact absurd h (by simp)
    · rw [if_neg ha] at h
      rw [List.cons_append, dictGet_cons, if_neg ha]
      exact ih h

theorem dictGet_append_single_ne (m : List (String × Int)) (k : String) (v : Int)
    (k' : String) (h : k' ≠ k) :
    dictGet k' (m ++ [(k, v)]) = dictGet k' m := by
  induction m with
  | nil =>
    rw [List.nil_append, dictGet_cons, if_neg (fun hh => h hh.symm)]
  | cons p m ih =>
    obtain ⟨a, b⟩ := p
    rw [List.cons_append, dictGet_cons, dictGet_cons]
    by_cases ha : a = k'
    · rw [if_pos ha, if_pos ha]
    · rw [if_neg ha, if_neg ha]
      exact ih

theorem dictGet_dictInsert_self (m : List (String × Int)) (k : String) (v : Int) :
    dictGet k (dictInsert m k v) = some v := by
  unfold dictInsert
  cases hm : dictGet k m with
  | some old => simp [hm, dictGet_map_self]
  | none =>
    rw [if_neg (by simp [hm])]
    rw [dictGet_append_of_none hm]
    simp [dictGet]

theorem dictGet_dictInsert_ne (m : List (String × Int)) (k : String) (v : Int)
    (k' : String) (h : k' ≠ k) :
    dictGet k' (dictInsert m k v) = dictGet k' m := by
  unfold dictInsert
  by_cases hm : (dictGet k m).isSome
  · rw [if_pos hm, dictGet_map_ne m k v k' h]
  · rw [if_neg hm]
    exact dictGet_append_single_ne m k v k' h

theorem updateEntry_eq_updateMax_aux (m : List (String × Int)) (k : String) (v : Int) :
    updateEntry m k v = updateMax m k v := by
  unfold updateEntry updateMax
  cases hm : dictGet k m with
  | none => rfl
  | some old =>
    by_cases he : old = v
    · subst he; simp [max_self]
    · simp [he]

theorem dictGet_updateEntry_self (m : List (String × Int)) (k : String) (v : Int) :
    dictGet k (updateEntry m k v) = some (optMax (dictGet k m) v) := by
  rw [updateEntry_eq_updateMax_aux]
  unfold updateMax
  cases hm : dictGet k m with
  | none => simp [optMax, dictGet_dictInsert_self]
  | some old => simp [optMax, dictGet_dictInsert_self]

theorem dictGet_updateEntry_ne (m : List (String × Int)) (k : String) (v : Int)
    (k' : String) (h : k' ≠ k) :
    dictGet k' (updateEntry m k v) = dictGet k' m := by
  rw [updateEntry_eq_updateMax_aux]
  unfold updateMax
  cases hm : dictGet k m with
  | none => exact dictGet_dictInsert_ne m k v k' h
  | some old => exact dictGet_dictInsert_ne m k (max old v) k' h

theorem optMax_absorb (o : Option Int) (v : Int) :
    optMax (some (optMax o v)) v = optMax o v := by
  cases o <;> simp [optMax, max_assoc]

theorem le_optMax_right (o : Option Int) (s : Int) : s ≤ optMax o s := by
  cases o with
  | none => simp [optMax]
  | some a => simp [optMax]

theorem dictGet_foldIssns (k : String) (v : Int) :
    ∀ (issns : List String) (m : List (String × Int)),
      dictGet k (foldIssns issns v m) =
        if k ∈ issns then some (optMax (dictGet k m) v) else dictGet k m := by
  intro issns
  induction issns with
  | nil => intro m; simp [foldIssns]
  | cons i is ih =>
    intro m
    have hstep : foldIssns (i :: is) v m = foldIssns is v (updateEntry m i v) := rfl
    rw [hstep, ih]
    by_cases hk : k = i
    · subst hk
      rw [dictGet_updateEntry_self]
      by_cases hm : k ∈ is
      · simp [hm, optMax_absorb]
      · simp [hm]
    · rw [dictGet_updateEntry_ne m i v k hk]
      simp [List.mem_cons, hk]

theorem processRows_ok_dictGet :
    ∀ (rows : List Row) (m res : List (String × Int)) (k : String),
      processRows rows m = Except.ok res →
      dictGet k res = combineScores (dictGet k m) (scoresFor rows k) := by
  intro rows
  induction rows with
  | nil =>
    intro m res k h
    have hm : m = res := by simpa [processRows] using h
    subst hm
    simp [scoresFor, combineScores]
  | cons r rs ih =>
    intro m res k h
    cases hp : parse_sjr r.sjr with
    | error e =>
      rw [show processRows (r :: rs) m = Except.error e from by
        simp [processRows, hp]] at h
      exact absurd h (by simp)
    | ok ov =>
      cases ov with
      | none =>
        have h2 : processRows rs m = Except.ok res := by
          rw [← h]; simp [processRows, hp]
        rw [ih m res k h2]
        have hs : scoresFor (r :: rs) k = scoresFor rs k := by
          simp [scoresFor, List.filterMap_cons, hp]
        rw [hs]
      | some v =>
        have h2 : processRows rs (foldIssns (parse_issns (pyStrip r.issn)) v m) =
            Except.ok res := by
          rw [← h]; simp [processRows, hp]
        rw [ih _ res k h2, dictGet_foldIssns]
        by_cases hk : k ∈ parse_issns (pyStrip r.issn)
        · rw [if_pos hk]
          have hs : scoresFor (r :: rs) k = v :: scoresFor rs k := by
            simp [scoresFor, List.filterMap_cons, hp, hk]
          rw [hs]
          rfl
        · rw [if_neg hk]
          have hs : scoresFor (r :: rs) k = scoresFor rs k := by
            simp [scoresFor, List.filterMap_cons, hp, hk]
          rw [hs]

theorem combineScores_some_bound :
    ∀ (ss : List Int) (o : Option Int) (v : Int),
      combineScores o ss = some v →
      (v ∈ ss ∨ o = some v) ∧ (∀ s ∈ ss, s ≤ v) ∧ (∀ a, o = some a → a ≤ v) := by
  intro ss
  induction ss with
  | nil =>
    intro o v h
    have ho : o = some v := by simpa [combineScores] using h
    refine ⟨Or.inr ho, by simp, fun a ha => ?_⟩
    rw [ha] at ho
    exact le_of_eq (Option.some.inj ho)
  | cons s ss ih =>
    intro o v h
    have h2 : combineScores (some (optMax o s)) ss = some v := h
    obtain ⟨h1, hb, ho⟩ := ih (some (optMax o s)) v h2
    have hov : optMax o s ≤ v := ho _ rfl
    have hsv : s ≤ v := le_trans (le_optMax_right o s) hov
    refine ⟨?_, ?_, ?_⟩
    · rcases h1 with hmem | heq
      · exact Or.inl (List.mem_cons_of_mem _ hmem)
      · have hv : optMax o s = v := Option.some.inj heq
        cases o with
        | none =>
          have : s = v := by simpa [optMax] using hv
          exact Or.inl (by simp [this])
        | some a =>
          rcases max_choice a s with hmax | hmax
          · refine Or.inr ?_
            have : a = v := by rw [← hv]; simp [optMax, hmax]
            rw [this]
          · refine Or.inl ?_
            have : s = v := by rw [← hv]; simp [optMax, hmax]
            simp [this]
    · intro s' hs'
      rcases List.mem_cons.mp hs' with rfl | hmem
      · exact hsv
      · exact hb _ hmem
    · intro a ha
      have h1a : a ≤ optMax o s := by
        rw [ha]; simp [optMax]
      exact le_trans h1a hov

theorem combineScores_none_max (ss : List Int) (v : Int)
    (h : combineScores none ss = some v) : v ∈ ss ∧ ∀ s ∈ ss, s ≤ v := by
  obtain ⟨h1, hb, _⟩ := combineScores_some_bound ss none v h
  rcases h1 with hmem | heq
  · exact ⟨hmem, hb⟩
  · exact absurd heq (by simp)

/-- Definitional unfolding of `parse_sjr`. -/
theorem parse_sjr_eq (value : String) :
    parse_sjr value =
      if pyStrip value = "" then Except.ok none
      else
        match pyFloatOfString (normalizeDecimal (removeSpaces (pyStrip value))) with
        | none => Except.ok none
        | some (.finite m f e n) => Except.ok (some (roundHalfEven m f e n))
        | some _ => Except.error () := by
  unfold parse_sjr
  by_cases hc : pyStrip value = ""
  · rw [if_pos hc]
  · rw [if_neg hc]

/-! ### Claim theorems -/

/-- C10: the conditional map-update step of `load_sjr_map` (assign when the
key is absent or the stored value equals the incoming score, otherwise store
the maximum) is extensionally equal, on every map state, key and score, to
the unconditional maximum-update. -/
theorem c10_update_equiv (m : List (String × Int)) (k : String) (v : Int) :
    updateEntry m k v = updateMax m k v :=
  updateEntry_eq_updateMax_aux m k v

/-- C1: for every CSV accepted by `load_sjr_map` and every ISSN key of the
returned map, the stored integer is the maximum of all scores parsed from
rows that contain that ISSN (rows with an absent score contribute nothing). -/
theorem c1_max_invariant (f : CsvFile) (m : List (String × Int)) (k : String) (v : Int)
    (hload : load_sjr_map (some f) = Except.ok m) (hget : dictGet k m = some v) :
    v ∈ scoresFor f.rows k ∧ ∀ s ∈ scoresFor f.rows k, s ≤ v := by
  obtain ⟨hdr, rows⟩ := f
  cases hdr with
  | none => simp [load_sjr_map] at hload
  | some hd =>
    by_cases hc : "Issn" ∉ hd ∨ "SJR" ∉ hd
    · simp [load_sjr_map, hc] at hload
    · simp only [load_sjr_map, hc, if_false] at hload
      cases hp : processRows rows [] with
      | error e => rw [hp] at hload; simp at hload
      | ok m2 =>
        rw [hp] at hload
        simp only [Except.ok.injEq] at hload
        subst hload
        have hcomb := processRows_ok_dictGet rows [] m2 k hp
        rw [hget] at hcomb
        exact combineScores_none_max _ v hcomb.symm

/-- C1 witness: an ISSN appearing in two rows with scores 4 and 7 maps to 7,
the maximum of its observed scores. -/
theorem c1_witness :
    (7 : Int) ∈ scoresFor [⟨"1234-5678", "4"⟩, ⟨"1234-5678", "7"⟩] "1234-5678" ∧
    ∀ s ∈ scoresFor [⟨"1234-5678", "4"⟩, ⟨"1234-5678", "7"⟩] "1234-5678", s ≤ 7 :=
  c1_max_invariant ⟨some ["Issn", "SJR"], [⟨"1234-5678", "4"⟩, ⟨"1234-5678", "7"⟩]⟩
    [("1234-5678", 7)] "1234-5678" 7 rfl rfl

/-- C2 counterexample: the claim says `"1.234,5"` maps to 1235, but the code
rounds 1234.5 half-to-even and returns 1234. -/
theorem c2_counterexample :
    parse_sjr "1.234,5" = Except.ok (some 1234) ∧
    parse_sjr "1.234,5" ≠ Except.ok (some 1235) := by
  refine ⟨rfl, ?_⟩
  intro h
  have h2 : (Except.ok (some (1234 : Int)) : Except Unit (Option Int)) =
      Except.ok (some (1235 : Int)) := h
  simp at h2

/-- C2 amended: `"8,6"` normalizes to `8.6` and rounds to 9; `"1.234,5"`
normalizes to `1234.5` (periods stripped as thousands separators, comma as
decimal point) and rounds half-to-even to 1234. -/
theorem c2_amended :
    parse_sjr "8,6" = Except.ok (some 9) ∧
    parse_sjr "1.234,5" = Except.ok (some 1234) :=
  ⟨rfl, rfl⟩

/-- C4: on the 3-row CSV with header `Issn;SJR` and rows
`1234-5678;3,2`, `1234-5678, 0987-654X;5`, `bad-issn;1`, `load_sjr_map`
returns exactly the map sending `0987-654X` and `1234-5678` to 5: the
invalid ISSN is discarded and the maximum of 3 and 5 is retained. -/
theorem c4_end_to_end :
    load_sjr_map (some ⟨some ["Issn", "SJR"],
        [⟨"1234-5678", "3,2"⟩, ⟨"1234-5678, 0987-654X", "5"⟩, ⟨"bad-issn", "1"⟩]⟩) =
      Except.ok [("1234-5678", 5), ("0987-654X", 5)] ∧
    dictGet "0987-654X" [("1234-5678", 5), ("0987-654X", 5)] = some 5 ∧
    dictGet "1234-5678" [("1234-5678", 5), ("0987-654X", 5)] = some 5 :=
  ⟨rfl, rfl, rfl⟩

/-- C6 counterexample: the claim says `parse_sjr` never raises for any
string input, but on `"nan"` the call `float("nan")` succeeds and
`round(nan)` raises an uncaught `ValueError`. -/
theorem c6_counterexample : parse_sjr "nan" = Except.error () := rfl

/-- C6 amended: for every input whose normalized form does not parse to NaN
or an infinity, `parse_sjr` returns `None` exactly when the input is empty
after trimming or the normalized string fails to parse as a number, and it
raises no error.  (On NaN/infinity inputs such as `"nan"` it raises.) -/
theorem c6_amended (value : String)
    (h : isSpecialFloat (sjrParsedFloat value) = false) :
    (parse_sjr value = Except.ok none ↔
      (pyStrip value = "" ∨ sjrParsedFloat value = none)) ∧
    ∃ r, parse_sjr value = Except.ok r := by
  rw [parse_sjr_eq]
  unfold sjrParsedFloat at h ⊢
  by_cases hc : pyStrip value = ""
  · rw [if_pos hc]
    exact ⟨by simp [hc], ⟨none, rfl⟩⟩
  · rw [if_neg hc]
    cases hf : pyFloatOfString (normalizeDecimal (removeSpaces (pyStrip value))) with
    | none => simp [hf]
    | some pf =>
      cases pf with
      | finite m f e n => simp [hf, hc]
      | inf => rw [hf] at h; simp [isSpecialFloat] at h
      | neginf => rw [hf] at h; simp [isSpecialFloat] at h
      | nan => rw [hf] at h; simp [isSpecialFloat] at h

/-- C6 witness: `"abc"` does not parse, so `parse_sjr` returns `None`
without raising. -/
theorem c6_witness :
    (parse_sjr "abc" = Except.ok none ↔
      (pyStrip "abc" = "" ∨ sjrParsedFloat "abc" = none)) ∧
    ∃ r, parse_sjr "abc" = Except.ok r :=
  c6_amended "abc" rfl

/-- C7: a row whose score is absent is skipped entirely: the map state after
processing that row equals the state before it, for every row (in particular
rows whose `Issn` field holds valid ISSN tokens). -/
theorem c7_skip_absent_row (r : Row) (rows : List Row) (m : List (String × Int))
    (h : parse_sjr r.sjr = Except.ok none) :
    processRows (r :: rows) m = processRows rows m := by
  simp [processRows, h]

/-- C7 witness: a row with a valid ISSN but empty SJR field contributes
nothing. -/
theorem c7_witness :
    processRows [⟨"1234-5678", ""⟩] [] = processRows [] [] :=
  c7_skip_absent_row ⟨"1234-5678", ""⟩ [] [] rfl

/-- C8: `load_sjr_map` fails with `NotFound` when the path does not exist,
and with a `Malformed` error when the header row is absent or lacks either
required column name under exact case-sensitive comparison; each failure
happens before any row is processed, so no map is produced. -/
theorem c8_header_errors :
    load_sjr_map none = Except.error LoadError.notFound ∧
    (∀ f : CsvFile, f.header = none →
      load_sjr_map (some f) = Except.error (LoadError.malformed "CSV header is missing.")) ∧
    (∀ (f : CsvFile) (hdr : List String), f.header = some hdr →
      ("Issn" ∉ hdr ∨ "SJR" ∉ hdr) →
      load_sjr_map (some f) =
        Except.error (LoadError.malformed "CSV header missing required columns: Issn, SJR")) := by
  refine ⟨rfl, ?_, ?_⟩
  · intro f h
    obtain ⟨hdr, rows⟩ := f
    cases h
    rfl
  · intro f hdr h hm
    obtain ⟨hdr0, rows⟩ := f
    cases h
    simp [load_sjr_map, hm]

/-- C8 witness: the three failure modes at concrete inputs, independent of
any rows present. -/
theorem c8_witness :
    load_sjr_map none = Except.error LoadError.notFound ∧
    load_sjr_map (some ⟨none, [⟨"1234-5678", "5"⟩]⟩) =
      Except.error (LoadError.malformed "CSV header is missing.") ∧
    load_sjr_map (some ⟨some ["Issn", "Title"], [⟨"1234-5678", "5"⟩]⟩) =
      Except.error (LoadError.malformed "CSV header missing required columns: Issn, SJR") :=
  ⟨c8_header_errors.1,
   c8_header_errors.2.1 ⟨none, [⟨"1234-5678", "5"⟩]⟩ rfl,
   c8_header_errors.2.2 ⟨some ["Issn", "Title"], [⟨"1234-5678", "5"⟩]⟩ ["Issn", "Title"]
     rfl (Or.inr (by decide))⟩

/-- C9: an ISSN string containing no whitespace normalizes to itself. -/
theorem c9_no_whitespace_roundtrip (s : String)
    (h : ∀ c ∈ s.data, pyIsSpace c = false) : normalize_issn s = s := by
  obtain ⟨l⟩ := s
  have hl : l.filter (fun c => c != ' ') = l := by
    apply List.filter_eq_self.mpr
    intro a ha
    have hsp := h a ha
    simp only [bne_iff_ne, ne_eq]
    intro hEq
    subst hEq
    exact absurd hsp (by decide)
  show String.mk (l.filter (fun c => c != ' ')) = String.mk l
  rw [hl]

/-- C9 witness: a whitespace-free ISSN is unchanged by normalization. -/
theorem c9_witness : normalize_issn "1234-567X" = "1234-567X" :=
  c9_no_whitespace_roundtrip "1234-567X" (by decide)

/-! ### ISSN field parser lemmas (claim C5) -/

theorem head_dropWhile_not (p : Char → Bool) :
    ∀ (l : List Char) (a : Char), (l.dropWhile p).head? = some a → p a = false := by
  intro l
  induction l with
  | nil => intro a h; simp [List.dropWhile] at h
  | cons x xs ih =>
    intro a h
    rw [List.dropWhile_cons] at h
    by_cases hx : p x = true
    · rw [if_pos hx] at h
      exact ih a h
    · rw [if_neg hx] at h
      simp only [List.head?_cons, Option.some.injEq] at h
      subst h
      exact Bool.not_eq_true _ ▸ hx

theorem pyStripChars_getLast_not_space (cs : List Char) (c : Char)
    (h : (pyStripChars cs).getLast? = some c) : pyIsSpace c = false := by
  unfold pyStripChars at h
  rw [List.getLast?_reverse] at h
  exact head_dropWhile_not pyIsSpace _ c h

theorem is_valid_issn_strip (part : List Char) :
    is_valid_issn (String.mk (pyStripChars part)) = issnBody (pyStripChars part) := by
  show (issnBody (pyStripChars part) ||
      (match (pyStripChars part).getLast? with
       | some c => if c == '\n' then issnBody (pyStripChars part).dropLast else false
       | none => false)) = issnBody (pyStripChars part)
  cases hl : (pyStripChars part).getLast? with
  | none => simp
  | some c =>
    have hc : pyIsSpace c = false := pyStripChars_getLast_not_space part c hl
    have hcn : (c == '\n') = false := by
      cases hbc : c == '\n'
      · rfl
      · exfalso
        have hcc : c = '\n' := eq_of_beq hbc
        rw [hcc] at hc
        exact absurd hc (by decide)
    simp [hcn]

theorem issnSpecPattern_eq_issnBody (t : List Char) : issnSpecPattern t = issnBody t := by
  rcases t with _ | ⟨c1, _ | ⟨c2, _ | ⟨c3, _ | ⟨c4, _ | ⟨c5, _ | ⟨c6, _ | ⟨c7, _ | ⟨c8, _ |
    ⟨c9, _ | ⟨c10, rest⟩⟩⟩⟩⟩⟩⟩⟩⟩⟩ <;> rfl

theorem issnBody_chars (t : List Char) (h : issnBody t = true) :
    ∀ c ∈ t, (c.isDigit || c == '-' || c == 'X' || c == 'x') = true := by
  rcases t with _ | ⟨c1, _ | ⟨c2, _ | ⟨c3, _ | ⟨c4, _ | ⟨c5, _ | ⟨c6, _ | ⟨c7, _ | ⟨c8, _ |
    ⟨c9, _ | ⟨c10, rest⟩⟩⟩⟩⟩⟩⟩⟩⟩⟩
  · simp
  · exact Bool.noConfusion h
  · exact Bool.noConfusion h
  · exact Bool.noConfusion h
  · exact Bool.noConfusion h
  · exact Bool.noConfusion h
  · exact Bool.noConfusion h
  · exact Bool.noConfusion h
  · replace h : (c1.isDigit && c2.isDigit && c3.isDigit && c4.isDigit &&
        c5.isDigit && c6.isDigit && c7.isDigit && issnCheckChar c8) = true := h
    simp only [Bool.and_eq_true] at h
    obtain ⟨⟨⟨⟨⟨⟨⟨h1, h2⟩, h3⟩, h4⟩, h5⟩, h6⟩, h7⟩, h8⟩ := h
    intro c hc
    simp only [List.mem_cons, List.not_mem_nil, or_false] at hc
    rcases hc with rfl | rfl | rfl | rfl | rfl | rfl | rfl | rfl
    · simp [h1]
    · simp [h2]
    · simp [h3]
    · simp [h4]
    · simp [h5]
    · simp [h6]
    · simp [h7]
    · simp only [issnCheckChar, Bool.or_eq_true] at h8 ⊢
      tauto
  · replace h : (c1.isDigit && c2.isDigit && c3.isDigit && c4.isDigit && c5 == '-' &&
        c6.isDigit && c7.isDigit && c8.isDigit && issnCheckChar c9) = true := h
    simp only [Bool.and_eq_true] at h
    obtain ⟨⟨⟨⟨⟨⟨⟨⟨h1, h2⟩, h3⟩, h4⟩, hd⟩, h6⟩, h7⟩, h8⟩, h9⟩ := h
    intro c hc
    simp only [List.mem_cons, List.not_mem_nil, or_false] at hc
    rcases hc with rfl | rfl | rfl | rfl | rfl | rfl | rfl | rfl | rfl
    · simp [h1]
    · simp [h2]
    · simp [h3]
    · simp [h4]
    · simp [hd]
    · simp [h6]
    · simp [h7]
    · simp [h8]
    · simp only [issnCheckChar, Bool.or_eq_true] at h9 ⊢
      tauto
  · exact Bool.noConfusion h

theorem issnChar_ne_space {c : Char}
    (h : (c.isDigit || c == '-' || c == 'X' || c == 'x') = true) :
    (c != ' ') = true ∧ pyIsSpace c = false := by
  constructor
  · simp only [bne_iff_ne, ne_eq]
    intro he
    subst he
    exact absurd h (by decide)
  · cases hq : pyIsSpace c
    · rfl
    · exfalso
      simp only [pyIsSpace, Bool.or_eq_true, beq_iff_eq] at hq
      rcases hq with ((((h1 | h1) | h1) | h1) | h1) | h1 <;>
        (subst h1; exact absurd h (by decide))

theorem c5_piece (part : List Char) :
    (if pyStripChars part ≠ [] ∧ is_valid_issn (String.mk (pyStripChars part)) = true
      then some (normalize_issn (String.mk (pyStripChars part))) else none) =
    (if issnSpecPattern (pyStripChars part) = true
      then some (String.mk ((pyStripChars part).filter (fun c => !pyIsSpace c))) else none) := by
  have hval := is_valid_issn_strip part
  have hspec := issnSpecPattern_eq_issnBody (pyStripChars part)
  by_cases hb : issnBody (pyStripChars part) = true
  · have hne : pyStripChars part ≠ [] := by
      intro he
      rw [he] at hb
      exact Bool.noConfusion hb
    rw [if_pos ⟨hne, hval.trans hb⟩, if_pos (hspec.trans hb)]
    have hchars := issnBody_chars _ hb
    have hf1 : (pyStripChars part).filter (fun c => c != ' ') = pyStripChars part :=
      List.filter_eq_self.mpr (fun a ha => (issnChar_ne_space (hchars a ha)).1)
    have hf2 : (pyStripChars part).filter (fun c => !pyIsSpace c) = pyStripChars part :=
      List.filter_eq_self.mpr (fun a ha => by
        have h2 := (issnChar_ne_space (hchars a ha)).2
        simp [h2])
    show some (String.mk ((pyStripChars part).filter (fun c => c != ' '))) = _
    rw [hf1, hf2]
  · rw [if_neg (fun hcontra => hb (hspec ▸ hcontra)),
      if_neg (fun hcontra => hb (hval ▸ hcontra.2))]

/-- C5: `parse_issns` implements exactly the claimed algorithm: split the
field on commas, trim each piece, keep (with internal whitespace removed) a
piece exactly when it matches the 4-digits, optional dash, 3-digits,
digit-or-X pattern, silently discard the rest; the empty field yields an
empty list, not an error. -/
theorem c5_parse_issns_spec :
    (∀ s : String, parse_issns s = claimParseIssns s) ∧ parse_issns "" = [] := by
  refine ⟨?_, rfl⟩
  intro s
  by_cases hs : s = ""
  · subst hs; rfl
  · unfold parse_issns claimParseIssns
    rw [if_neg hs]
    exact List.filterMap_congr (fun part _ => c5_piece part)

/-! ### Emitter lemmas (claim C3) -/

theorem strExt {s t : String} (h : s.data = t.data) : s = t := by
  cases s
  cases t
  exact congrArg String.mk h

theorem strData_append (s t : String) : (s ++ t).data = s.data ++ t.data := rfl

theorem joinLines_cons_of_ne_nil (l : String) (rest : List String) (h : rest ≠ []) :
    joinLines (l :: rest) = l ++ "\n" ++ joinLines rest := by
  cases rest with
  | nil => exact absurd rfl h
  | cons l2 rest2 => rfl

theorem joinLines_entries (L : List String) :
    joinLines (L ++ ["\x7d;", ""]) =
      strJoin (L.map (fun l => l ++ "\n")) ++ specEmitFooter := by
  induction L with
  | nil => rfl
  | cons e L ih =>
    rw [List.cons_append,
      joinLines_cons_of_ne_nil _ _ (by cases L <;> simp), ih]
    apply strExt
    simp only [List.map_cons, strJoin, strData_append, List.append_assoc]

theorem joinLines_full (E : List String) :
    joinLines ("// Scimago SJR mapping generated from scimagojr_2024.csv." :: "" ::
      "export const SCIMAGO_SJR = \x7b" :: (E ++ ["\x7d;", ""])) =
    specEmitHeader ++ strJoin (E.map (fun l => l ++ "\n")) ++ specEmitFooter := by
  rw [joinLines_cons_of_ne_nil _ _ (by simp),
    joinLines_cons_of_ne_nil _ _ (by simp),
    joinLines_cons_of_ne_nil _ _ (by cases E <;> simp),
    joinLines_entries E]
  apply strExt
  simp only [specEmitHeader, strData_append, List.append_assoc]

theorem write_js_module_eq (m : List (String × Int)) :
    write_js_module m = specEmitFourSpace m := by
  unfold write_js_module specEmitFourSpace
  rw [show (["// Scimago SJR mapping generated from scimagojr_2024.csv.", "",
        "export const SCIMAGO_SJR = \x7b"]
      ++ (sortedKeys m).map (fun k =>
            "    \"" ++ k ++ "\": " ++ toString ((dictGet k m).getD 0) ++ ",")
      ++ ["\x7d;", ""]) =
    ("// Scimago SJR mapping generated from scimagojr_2024.csv." :: "" ::
      "export const SCIMAGO_SJR = \x7b" :: ((sortedKeys m).map (fun k =>
        "    \"" ++ k ++ "\": " ++ toString ((dictGet k m).getD 0) ++ ",") ++ ["\x7d;", ""]))
    from rfl]
  rw [joinLines_full, List.map_map]
  rfl

theorem insertKey_perm (k : String) (l : List String) : List.Perm (insertKey k l) (k :: l) := by
  induction l with
  | nil => exact List.Perm.refl _
  | cons x xs ih =>
    unfold insertKey
    by_cases h : k ≤ x
    · rw [if_pos h]
    · rw [if_neg h]
      exact (List.Perm.cons x ih).trans (List.Perm.swap k x xs)

theorem sortKeys_perm (l : List String) : List.Perm (sortKeys l) l := by
  induction l with
  | nil => exact List.Perm.refl _
  | cons x xs ih =>
    unfold sortKeys
    exact (insertKey_perm x (sortKeys xs)).trans (List.Perm.cons x ih)

theorem insertKey_sorted (k : String) (l : List String) (h : List.Sorted (· ≤ ·) l) :
    List.Sorted (· ≤ ·) (insertKey k l) := by
  induction l with
  | nil => simp [insertKey]
  | cons x xs ih =>
    unfold insertKey
    rw [List.sorted_cons] at h
    obtain ⟨hx, hxs⟩ := h
    by_cases hk : k ≤ x
    · rw [if_pos hk]
      refine List.sorted_cons.mpr ⟨?_, List.sorted_cons.mpr ⟨hx, hxs⟩⟩
      intro b hb
      rcases List.mem_cons.mp hb with rfl | hb2
      · exact hk
      · exact le_trans hk (hx b hb2)
    · rw [if_neg hk]
      have hxk : x ≤ k := le_of_not_le hk
      refine List.sorted_cons.mpr ⟨?_, ih hxs⟩
      intro b hb
      have hb2 : b ∈ k :: xs := (insertKey_perm k xs).mem_iff.mp hb
      rcases List.mem_cons.mp hb2 with rfl | hb3
      · exact hxk
      · exact hx b hb3

theorem sortKeys_sorted (l : List String) : List.Sorted (· ≤ ·) (sortKeys l) := by
  induction l with
  | nil => simp [sortKeys]
  | cons x xs ih => exact insertKey_sorted x (sortKeys xs) ih

/-- C3 counterexample: the emitted entry lines are four-space-indented, not
two-space-indented as the claim states; shown on the singleton map. -/
theorem c3_counterexample :
    write_js_module [("0000-0000", (1 : Int))] =
      "// Scimago SJR mapping generated from scimagojr_2024.csv.\n\nexport const SCIMAGO_SJR = \x7b\n    \"0000-0000\": 1,\n\x7d;\n" ∧
    write_js_module [("0000-0000", (1 : Int))] ≠
      specEmitTwoSpace [("0000-0000", (1 : Int))] :=
  ⟨rfl, by decide⟩

/-- C3 amended: for every final map, the output artifact is a header comment
line, a blank line, an opening declaration line, one four-space-indented
entry line `"<ISSN>": <integer>,` (trailing comma included) per key in
lexicographically sorted key order, a closing line, and a single trailing
newline. -/
theorem c3_amended (m : List (String × Int)) :
    write_js_module m = specEmitFourSpace m ∧
    List.Sorted (· ≤ ·) (sortedKeys m) ∧ List.Perm (sortedKeys m) (m.map Prod.fst) :=
  ⟨write_js_module_eq m, sortKeys_sorted _, sortKeys_perm _⟩
